import Mathlib

/-!
Verification of the SpeechBridge timeline-reconciliation core.

This file gives a shallow embedding of the pure control and arithmetic
logic of the segmentation, voice-activity, speaker-attribution, merging
and audio/video reconciliation code (`src/core/speaker_diarization.py`,
`src/core/voice_activity_detector.py`, `src/core/video_processor.py`),
and proves or refutes the specified properties about it.

Times are modelled as exact rationals (the Python code computes on
millisecond integers coming from pydub, divided by 1000.0).  External
media analysis (librosa features, pydub loudness probes, the contents of
audio files) is modelled by oracle parameters; every control-flow
decision and arithmetic step of the source is reproduced.
-/

namespace SpeechBridge

/-! ### Data model: segments produced by `SpeakerDiarization` -/

/-- One audio segment as built by
`SpeakerDiarization._segment_by_silence_with_speaker_logic` /
`_merge_segment_group` (a Python dict with these keys). -/
structure Seg where
  id : ℕ
  path : String
  start_time : ℚ
  end_time : ℚ
  duration : ℚ
  speaker : String
  speaker_confidence : ℚ
  silence_after : ℚ
  merged_from : Option ℕ := none
deriving DecidableEq

/-- `f"Speaker_{chr(65 + current_speaker)}"` for `current_speaker ∈ {0,1}`. -/
def speakerLabel (k : ℕ) : String :=
  "Speaker_" ++ String.mk [Char.ofNat (65 + k)]

/-- `_extract_audio_segment` output path (configless branch):
`f"/tmp/speaker_segment_{segment_id}.wav"`. -/
def segPath (n : ℕ) : String :=
  "/tmp/speaker_segment_" ++ toString n ++ ".wav"

/-- Main loop of `_segment_by_silence_with_speaker_logic` (lines 91-158).
Arguments mirror the Python state: the remaining silence list (millisecond
pairs from `detect_silence`), `current_pos` (ms), `current_speaker`
(0 = A, 1 = B) and `len(segments)` so far.  The `[]` case is the trailing
"last segment after the last pause" block (lines 137-158). -/
def extractLoop (audioLen : ℕ) (minDur : ℚ) :
    List (ℕ × ℕ) → ℕ → ℕ → ℕ → List Seg
  | [], pos, spk, n =>
    if pos < audioLen then
      let dur : ℚ := ((audioLen : ℚ) - (pos : ℚ)) / 1000
      if minDur ≤ dur then
        -- "Длинный последний сегмент - возможно другой спикер"
        let spk' : ℕ := if 30 < dur then (spk + 1) % 2 else spk
        [{ id := n, path := segPath n,
           start_time := (pos : ℚ) / 1000, end_time := (audioLen : ℚ) / 1000,
           duration := dur, speaker := speakerLabel spk',
           speaker_confidence := 4/5, silence_after := 0 }]
      else []
    else []
  | (sStart, sEnd) :: rest, pos, spk, n =>
    if pos < sStart then
      let dur : ℚ := ((sStart : ℚ) - (pos : ℚ)) / 1000
      if minDur ≤ dur then
        -- silence_duration is the pause FOLLOWING this candidate,
        -- forced to 0 when that pause is the last one in the list
        let silDur : ℚ := if rest ≠ [] then ((sEnd : ℚ) - (sStart : ℚ)) / 1000 else 0
        let spk' : ℕ :=
          if n = 0 then 0
          else if 3 < silDur then (spk + 1) % 2
          else if 60 < dur then (spk + 1) % 2
          else spk
        { id := n, path := segPath n,
          start_time := (pos : ℚ) / 1000, end_time := (sStart : ℚ) / 1000,
          duration := dur, speaker := speakerLabel spk',
          speaker_confidence := 4/5,
          silence_after := ((sEnd : ℚ) - (sStart : ℚ)) / 1000 } ::
          extractLoop audioLen minDur rest sEnd spk' (n + 1)
      else extractLoop audioLen minDur rest sEnd spk n
    else extractLoop audioLen minDur rest sEnd spk n

/-- `_segment_by_silence_with_speaker_logic`, given the audio length in ms
and the silence intervals `detect_silence` returned. -/
def segment_by_silence_with_speaker_logic
    (audioLen : ℕ) (sils : List (ℕ × ℕ)) (minDur : ℚ) : List Seg :=
  extractLoop audioLen minDur sils 0 0 0

/-- The candidate chunks the loop considers: the span up to each silence
start (when nonempty) and the trailing span after the last silence. -/
def candidateChunks (audioLen : ℕ) : List (ℕ × ℕ) → ℕ → List (ℚ × ℚ)
  | [], pos =>
    if pos < audioLen then [((pos : ℚ) / 1000, (audioLen : ℚ) / 1000)] else []
  | (sStart, sEnd) :: rest, pos =>
    if pos < sStart then
      ((pos : ℚ) / 1000, (sStart : ℚ) / 1000) :: candidateChunks audioLen rest sEnd
    else candidateChunks audioLen rest sEnd

/-- For each emitted segment, whether the source's speaker-switch trigger
fired for it: `false` for the first segment emitted in the main loop;
for later main-loop segments, pause-after > 3s (0 for the last pause) or
own duration > 60s; for the trailing segment, own duration > 30s. -/
def switchFlags (audioLen : ℕ) (minDur : ℚ) :
    List (ℕ × ℕ) → ℕ → Bool → List Bool
  | [], pos, _ =>
    if pos < audioLen then
      let dur : ℚ := ((audioLen : ℚ) - (pos : ℚ)) / 1000
      if minDur ≤ dur then [decide (30 < dur)] else []
    else []
  | (sStart, sEnd) :: rest, pos, isFirst =>
    if pos < sStart then
      let dur : ℚ := ((sStart : ℚ) - (pos : ℚ)) / 1000
      if minDur ≤ dur then
        let silDur : ℚ := if rest ≠ [] then ((sEnd : ℚ) - (sStart : ℚ)) / 1000 else 0
        (if isFirst then false else (decide (3 < silDur) || decide (60 < dur))) ::
          switchFlags audioLen minDur rest sEnd false
      else switchFlags audioLen minDur rest sEnd isFirst
    else switchFlags audioLen minDur rest sEnd isFirst

/-- Speaker labels obtained by flipping a base speaker index at each
`true` flag (sequential form of prefix-parity switching). -/
def parityLabels (base : ℕ) : List Bool → List String
  | [] => []
  | f :: fs =>
    let b : ℕ := if f then (base + 1) % 2 else base
    speakerLabel b :: parityLabels b fs

/-! ### `merge_short_segments` / `_merge_segment_group` -/

/-- Placeholder for the `return {}` of `_merge_segment_group` on an empty
group (unreachable from `merge_short_segments`). -/
def emptySeg : Seg :=
  { id := 0, path := "", start_time := 0, end_time := 0, duration := 0,
    speaker := "", speaker_confidence := 0, silence_after := 0 }

/-- `_merge_segment_group` (lines 263-281): first's start, last's end,
summed duration, averaged confidence, `merged_from` count. -/
def merge_segment_group : List Seg → Seg
  | [] => emptySeg
  | first :: rest =>
    let last := (first :: rest).getLast (by simp)
    { id := first.id, path := first.path,
      start_time := first.start_time, end_time := last.end_time,
      duration := ((first :: rest).map Seg.duration).sum,
      speaker := first.speaker,
      speaker_confidence :=
        ((first :: rest).map Seg.speaker_confidence).sum
          / (((first :: rest).length : ℚ)),
      silence_after := last.silence_after,
      merged_from := some (first :: rest).length }

/-- Flush one group: merge when it has more than one member, otherwise
emit the single original segment unchanged. -/
def flushGroup (group : List Seg) : Seg :=
  if 1 < group.length then merge_segment_group group else group.headD emptySeg

/-- Walking loop of `merge_short_segments` (lines 234-258).  `group` is
`current_group` (nonempty, in order); `prev_seg = segments[i-1]` is
always the last element appended, i.e. `group.getLast`. -/
def mergeLoop (minDur : ℚ) : List Seg → List Seg → List Seg
  | group, [] => [flushGroup group]
  | group, cur :: rest =>
    if cur.speaker = (group.getLastD emptySeg).speaker ∧
        (group.map Seg.duration).sum + cur.duration < minDur * 2 then
      mergeLoop minDur (group ++ [cur]) rest
    else
      flushGroup group :: mergeLoop minDur [cur] rest
termination_by structural _ l => l

/-- `merge_short_segments` (lines 217-261). -/
def merge_short_segments (segs : List Seg) (minDur : ℚ) : List Seg :=
  match segs with
  | [] => []
  | s0 :: rest => mergeLoop minDur [s0] rest

/-! ### `VoiceActivityDetector` -/

/-- The metric dict `_extract_speech_metrics` returns.  The values are
computed by librosa from the audio samples; here they are carried as the
oracle description of the file's content.  `speech_freq_fraction` is the
source's `speech_frequency_ratio` key. -/
structure Metrics where
  rms_energy : ℚ
  spectral_centroid : ℚ
  spectral_bandwidth : ℚ
  zero_crossing_rate : ℚ
  mfcc_variance : ℚ
  spectral_contrast : ℚ
  speech_freq_fraction : ℚ
  duration : ℚ
deriving DecidableEq

/-- Detector thresholds set in `VoiceActivityDetector.__init__`. -/
def min_speech_energy : ℚ := 1/100
def min_spectral_centroid : ℚ := 1000
def max_spectral_centroid : ℚ := 8000
def min_speech_duration : ℚ := 1/2
def speech_freq_threshold : ℚ := 3/10

/-- Left-pad a digit string with zeros to the given width. -/
def padZeros (width : ℕ) (s : String) : String :=
  String.mk (List.replicate (width - s.length) '0') ++ s

/-- Fixed-point rendering of a rational with `prec` decimals, used for
the Python f-string `:.3f` / `:.1f` / `:.0f` formats in reason strings
(CPython rounds the underlying binary float half-to-even; the rational
model rounds half away from zero, which agrees except on exact ties). -/
def fmtFixed (prec : ℕ) (q : ℚ) : String :=
  let p : ℕ := 10 ^ prec
  let n : ℕ := (|q| * (p : ℚ) + 1/2).floor.toNat
  (if q < 0 then "-" else "") ++ toString (n / p) ++
    (if prec = 0 then "" else "." ++ padZeros prec (toString (n % p)))

/-- `_calculate_speech_score` (lines 126-166): weighted sum of clamped
sub-scores, capped at 1. -/
def calculate_speech_score (m : Metrics) : ℚ :=
  let s0 : ℚ := 0
  let s1 := if min_speech_energy < m.rms_energy
    then s0 + (2/10) * min 1 (m.rms_energy / (1/10)) else s0
  let s2 := if min_spectral_centroid ≤ m.spectral_centroid ∧
      m.spectral_centroid ≤ max_spectral_centroid
    then s1 + (25/100) * max 0 (1 - |m.spectral_centroid - 2500| / 2500) else s1
  let s3 := if speech_freq_threshold ≤ m.speech_freq_fraction
    then s2 + (3/10) * min 1 (m.speech_freq_fraction / (8/10)) else s2
  let s4 := if 1/2 < m.mfcc_variance
    then s3 + (15/100) * min 1 (m.mfcc_variance / 2) else s3
  let s5 := if min_speech_duration ≤ m.duration
    then s4 + (1/10) * min 1 (m.duration / 2) else s4
  min 1 s5

/-- `_get_decision_reason` (lines 168-191). -/
def get_decision_reason (m : Metrics) (score threshold : ℚ) : String :=
  if score < threshold then
    let reasons : List String :=
      (if m.rms_energy < min_speech_energy then
        ["низкая_энергия(" ++ fmtFixed 3 m.rms_energy ++ ")"] else []) ++
      (if m.spectral_centroid < min_spectral_centroid then
        ["низкий_центроид(" ++ fmtFixed 0 m.spectral_centroid ++ "Hz)"]
       else if max_spectral_centroid < m.spectral_centroid then
        ["высокий_центроид(" ++ fmtFixed 0 m.spectral_centroid ++ "Hz)"]
       else []) ++
      (if m.speech_freq_fraction < speech_freq_threshold then
        ["мало_речевых_частот(" ++ fmtFixed 3 m.speech_freq_fraction ++ ")"] else []) ++
      (if m.duration < min_speech_duration then
        ["короткий_сегмент(" ++ fmtFixed 1 m.duration ++ "s)"] else [])
    if reasons ≠ [] then "не_речь: " ++ String.intercalate ", " reasons
    else "низкий_общий_счет"
  else "речь: счет=" ++ fmtFixed 3 score

/-- Oracle description of one audio file as `is_speech_segment` sees it:
`loadFails` models `librosa.load` (or the subsequent feature extraction)
raising; `metrics` are the features librosa would extract (meaningful
when the file is nonempty and nothing raises). -/
structure AudioFile where
  n_samples : ℕ
  sr : ℕ
  loadFails : Bool
  errText : String := ""
  metrics : Metrics

/-- Result dict of `is_speech_segment`; `metrics = none` models the
empty dict `{}`. -/
structure VadResult where
  is_speech : Bool
  confidence : ℚ
  reason : String
  metrics : Option Metrics
deriving DecidableEq

/-- `is_speech_segment` (lines 27-79). -/
def is_speech_segment (a : AudioFile) (threshold : ℚ) : VadResult :=
  if a.loadFails then
    -- "По умолчанию считаем речью при ошибке"
    { is_speech := true, confidence := 1/2,
      reason := "error: " ++ a.errText, metrics := none }
  else if a.n_samples = 0 then
    { is_speech := false, confidence := 0,
      reason := "empty_audio", metrics := none }
  else
    let m := a.metrics
    let score := calculate_speech_score m
    { is_speech := threshold ≤ score, confidence := score,
      reason := get_decision_reason m score threshold, metrics := some m }

/-- A diarization segment with the VAD marks `filter_speech_segments`
attaches (`status` is added only for non-speech verdicts). -/
structure VadSeg where
  seg : Seg
  vad_is_speech : Bool
  vad_confidence : ℚ
  vad_reason : String
  vad_metrics : Option Metrics
  status : Option String := none
deriving DecidableEq

/-- `filter_speech_segments` (lines 193-237).  `fsExists` models
`Path(...).exists()`; `audioOf` maps a path to the file it names. -/
def filter_speech_segments (fsExists : String → Bool) (audioOf : String → AudioFile)
    (min_confidence : ℚ) : List Seg → List VadSeg
  | [] => []
  | s :: rest =>
    if s.path = "" ∨ ¬ fsExists s.path then
      -- "Сегмент {i+1}: файл не найден" — the segment is dropped
      filter_speech_segments fsExists audioOf min_confidence rest
    else
      let vr := is_speech_segment (audioOf s.path) min_confidence
      let marked : VadSeg :=
        { seg := s, vad_is_speech := vr.is_speech, vad_confidence := vr.confidence,
          vad_reason := vr.reason, vad_metrics := vr.metrics, status := none }
      if vr.is_speech then
        marked :: filter_speech_segments fsExists audioOf min_confidence rest
      else
        { marked with status := some "no_speech_vad" } ::
          filter_speech_segments fsExists audioOf min_confidence rest

/-! ### Gender detection and voice assignment -/

inductive Gender
  | male
  | female
deriving DecidableEq

/-- `self.voice_mapping` from `SpeakerDiarization.__init__`. -/
def voice_mapping : Gender → List String
  | .male => ["ru-male-1", "ru-male-2", "ru-male-3"]
  | .female => ["ru-female-1", "ru-female-2", "ru-female-3"]

/-- `self.used_voices` round-robin counters. -/
structure UsedVoices where
  maleCount : ℕ
  femaleCount : ℕ
deriving DecidableEq

def UsedVoices.get (u : UsedVoices) : Gender → ℕ
  | .male => u.maleCount
  | .female => u.femaleCount

def UsedVoices.bump (u : UsedVoices) : Gender → UsedVoices
  | .male => { u with maleCount := u.maleCount + 1 }
  | .female => { u with femaleCount := u.femaleCount + 1 }

/-- `_assign_voice_for_speaker` (lines 419-441).  The source's
`if gender not in self.voice_mapping: gender = 'male'` fallback is
vacuous here because `Gender` has exactly the two mapped values.
Returns the chosen voice and the incremented counters. -/
def assign_voice_for_speaker (gender : Gender) (used : UsedVoices) :
    String × UsedVoices :=
  let available := voice_mapping gender
  let idx := used.get gender % available.length
  (available.getD idx "", used.bump gender)

/-- Oracle description of what librosa computes for one speaker-segment
audio file during gender analysis: `pitchFails` models an exception in
`librosa.load`/`piptrack` (lines 374-377), `f0_values` the positive
per-frame pitches, `spectralFails` an exception inside
`_analyze_spectral_features` (lines 415-417). -/
structure VoiceAnalysis where
  pitchFails : Bool
  f0_values : List ℚ
  spectralFails : Bool
  mean_centroid : ℚ
  mean_mfcc : List ℚ

/-- `np.median`: middle of the sorted data, mean of the two middles for
even length. -/
def npMedian (l : List ℚ) : ℚ :=
  let s := l.mergeSort (fun a b => a ≤ b)
  if l.length % 2 = 1 then s.getD (l.length / 2) 0
  else (s.getD (l.length / 2 - 1) 0 + s.getD (l.length / 2) 0) / 2

/-- `_analyze_spectral_features` (lines 379-417). -/
def analyze_spectral_features (a : VoiceAnalysis) : Gender :=
  if a.spectralFails then Gender.male   -- "Fallback по умолчанию"
  else if 2500 < a.mean_centroid then Gender.female
  else if a.mean_centroid < 1500 then Gender.male
  else if 1 < a.mean_mfcc.length ∧ 0 < a.mean_mfcc.getD 1 0 then Gender.female
  else Gender.male

/-- `_analyze_voice_gender` (lines 329-377).  On an exception the source
falls back to `'male' if len(audio_path) % 2 == 0 else 'female'`. -/
def analyze_voice_gender (audio_path : String) (a : VoiceAnalysis) : Gender :=
  if a.pitchFails then
    (if audio_path.length % 2 = 0 then Gender.male else Gender.female)
  else if a.f0_values = [] then analyze_spectral_features a
  else
    let median_f0 := npMedian a.f0_values
    if median_f0 < 150 then Gender.male
    else if 200 < median_f0 then Gender.female
    else analyze_spectral_features a

/-- A segment with the gender/voice attribution attached. -/
structure GSeg where
  seg : Seg
  gender : Gender
  voice_id : String
deriving DecidableEq

/-- Loop body of `_detect_gender_for_segments` (lines 299-317): gender is
cached per speaker label, then `_assign_voice_for_speaker` is called for
the segment. -/
def detectLoop (analysisOf : String → VoiceAnalysis) :
    List Seg → List (String × Gender) → UsedVoices → List GSeg
  | [], _, _ => []
  | s :: rest, cache, used =>
    let gender : Gender :=
      match cache.lookup s.speaker with
      | some g => g
      | none => analyze_voice_gender s.path (analysisOf s.path)
    let cache' :=
      if (cache.lookup s.speaker).isSome then cache
      else cache ++ [(s.speaker, gender)]
    let assigned := assign_voice_for_speaker gender used
    { seg := s, gender := gender, voice_id := assigned.1 } ::
      detectLoop analysisOf rest cache' assigned.2

/-- `_detect_gender_for_segments` (lines 283-327); the used-voice
counters are reset to zero on entry (line 296). -/
def detect_gender_for_segments (analysisOf : String → VoiceAnalysis)
    (segments : List Seg) : List GSeg :=
  detectLoop analysisOf segments [] { maleCount := 0, femaleCount := 0 }

/-! ### `VideoProcessor._combine_translated_audio` (lines 500-779)

The function assembles the final audio track by concatenating pydub
`AudioSegment`s.  Only piece lengths matter for the timeline properties
(loudness normalization, the optional overlay of the original audio and
the wav export all preserve length), so the track is modelled as the
list of appended pieces with their millisecond lengths. -/

/-- A translated segment as `_combine_translated_audio` reads it
(dict `.get` defaults: `vad_is_speech` true, `status` empty,
`success`/`translated_audio_path` absent → `none`). -/
structure TSeg where
  start_time : ℚ
  end_time : ℚ
  vad_is_speech : Bool := true
  status : String := ""
  success : Option Bool := none
  translated_audio_path : Option String := none
deriving DecidableEq

/-- One appended pydub piece: generated silence or a loaded translated
segment, each of a given length in ms. -/
inductive Piece
  | silence (ms : ℕ)
  | speech (ms : ℕ)
deriving DecidableEq

def Piece.ms : Piece → ℕ
  | .silence n => n
  | .speech n => n

def Piece.isSilence : Piece → Bool
  | .silence _ => true
  | .speech _ => false

/-- Seconds value of a millisecond count. -/
def msQ (n : ℕ) : ℚ := (n : ℚ) / 1000

/-- Python `int(x)` on the nonnegative second-to-ms products the source
builds (`int(silence_duration)` with `silence_duration = gap * 1000`). -/
def floorMs (q : ℚ) : ℕ := (q * 1000).floor.toNat

/-- External-analysis oracle for one `_combine_translated_audio` call:
file existence, translated-audio lengths, and the two loudness probes
(lines 582-618 probe the original video's audio in 0.5s steps up to 45s
for the first window louder than −35 dBFS; lines 625-650 probe the first
translated file when the first 5s are below −50 dBFS). -/
structure CombineEnv where
  fsExists : String → Bool
  audioLenMs : String → ℕ
  origPathGiven : Bool
  /-- `detected_silence_duration` the original-audio probe would yield
  (0 when the probe finds sound immediately, finds nothing, or fails). -/
  origProbeMs : ℕ
  /-- `some ms` when the first-translated-segment probe would insert
  `ms` of silence; `none` when its guarding conditions fail. -/
  transProbe : Option ℕ

/-- The leading-silence block (lines 579-658): returns the pieces
prepended before the loop and the resulting `current_time`. -/
def leadPieces (env : CombineEnv) (first_start : ℚ) : List Piece × ℚ :=
  let detected : ℕ :=
    if first_start = 0 ∧ env.origPathGiven then env.origProbeMs else 0
  if 0 < detected then ([Piece.silence detected], msQ detected)
  else if first_start = 0 then
    match env.transProbe with
    | some probeMs => ([Piece.silence probeMs], msQ probeMs)
    | none => ([], 0)
  else if 0 < first_start then ([Piece.silence (floorMs first_start)], first_start)
  else ([], 0)

/-- Whether the per-segment checks of the main loop (lines 664-676) let
the segment through: an existing audio file and no failed status. -/
def combinePass (env : CombineEnv) (s : TSeg) : Bool :=
  match s.translated_audio_path with
  | none => false
  | some p =>
    ¬ (p = "" ∨ ¬ env.fsExists p) ∧
      ¬ (s.success = some false ∨ s.status = "error" ∨ s.status = "no_speech")

/-- Main appending loop (lines 660-704): a silence gap from
`current_time` to the segment start when one exists, then the translated
audio; `current_time` advances to the segment's original `end_time`.
The quiet-segment normalization (line 692) preserves length and is not
tracked.  Returns the pieces, the final `current_time` and
`successful_segments`. -/
def appendLoop (env : CombineEnv) :
    List TSeg → List Piece → ℚ → ℕ → List Piece × ℚ × ℕ
  | [], acc, cur, succ => (acc, cur, succ)
  | s :: rest, acc, cur, succ =>
    if combinePass env s then
      let p := s.translated_audio_path.getD ""
      let gap : List Piece :=
        if cur < s.start_time then [Piece.silence (floorMs (s.start_time - cur))]
        else []
      appendLoop env rest (acc ++ gap ++ [Piece.speech (env.audioLenMs p)])
        s.end_time (succ + 1)
    else appendLoop env rest acc cur succ

/-- VAD pre-filter plus sort (lines 537-574): keep segments whose
`vad_is_speech` is not false and whose status is not `no_speech_vad`,
and (line 549) whose `end_time` is truthy; then sort by `start_time`
(Python's stable sort, modelled by the stable `mergeSort`). -/
def speechSegsOf (segs : List TSeg) : List TSeg :=
  (segs.filter fun s =>
      (s.vad_is_speech ∧ s.status ≠ "no_speech_vad") ∧ s.end_time ≠ 0).mergeSort
    (fun a b => a.start_time ≤ b.start_time)

/-- `_combine_translated_audio`: `none` models `return None` (no speech
segments, or no segment successfully appended). -/
def combine_translated_audio (env : CombineEnv) (segs : List TSeg)
    (video_duration : ℚ) : Option (List Piece) :=
  let speech := speechSegsOf segs
  match speech with
  | [] => none
  | s0 :: _ =>
    let lead := leadPieces env s0.start_time
    let result := appendLoop env speech lead.1 lead.2 0
    if result.2.2 = 0 then none
    else if result.2.1 < video_duration then
      some (result.1 ++ [Piece.silence (floorMs (video_duration - result.2.1))])
    else some result.1

/-- Total track length in ms. -/
def trackMs (pieces : List Piece) : ℕ := (pieces.map Piece.ms).sum

/-- Total inferred silence (leading, inter-segment and trailing) in ms. -/
def gapMsSum (pieces : List Piece) : ℕ :=
  ((pieces.filter Piece.isSilence).map Piece.ms).sum

/-- Sum of the (original-timeline) durations of a segment list. -/
def segDurSum (l : List TSeg) : ℚ :=
  (l.map fun s => s.end_time - s.start_time).sum

/-- The speech segments the loop actually appends. -/
def appendedSegs (env : CombineEnv) (segs : List TSeg) : List TSeg :=
  (speechSegsOf segs).filter (combinePass env)

/-! ### `VideoProcessor.create_final_video` merge decision (lines 186-220) -/

/-- The parts of the ffmpeg mux command the duration comparison decides:
the video codec (`copy` versus a `libx264` re-encode) and the optional
`tpad=stop_mode=clone:stop_duration=…` last-frame-hold filter.  No
branch ever adds an audio trim or pad. -/
structure MergeCmd where
  video_codec : String
  audio_codec : String
  tpad_clone : Option ℚ
deriving DecidableEq

/-- The duration-merge decision: pad the video (re-encoding it) when the
measured audio is more than 0.5s longer than the video; otherwise both
the close-durations branch and the video-longer branch leave the base
command untouched (video stream copied, audio encoded to aac). -/
def build_merge_cmd (video_duration real_audio_duration : ℚ) : MergeCmd :=
  if video_duration + 1/2 < real_audio_duration then
    { video_codec := "libx264", audio_codec := "aac",
      tpad_clone := some (real_audio_duration - video_duration) }
  else
    { video_codec := "copy", audio_codec := "aac", tpad_clone := none }

/-! ### Segment-wise retiming (`_adjust_video_speed_by_segments`,
lines 358-464, and `create_synchronized_video_blocks`, lines 892-1013) -/

/-- A produced video sub-clip: passed through at original speed, or
retimed by a `speedx` factor. -/
inductive Clip
  | normal (s e : ℚ)
  | retimed (s e factor : ℚ)
deriving DecidableEq

/-- Per-segment clip of `_adjust_video_speed_by_segments`
(lines 422-440): retimed iff `speed_ratio != 1.0 and speed_ratio > 0.1`,
otherwise kept at original speed ("некорректный коэффициент"). -/
def adjustSegClip (s e factor : ℚ) : Clip :=
  if factor ≠ 1 ∧ 1/10 < factor then Clip.retimed s e factor
  else Clip.normal s e

/-- Clip-assembly loop of `_adjust_video_speed_by_segments`
(lines 407-448): normal-speed clips for the gaps before each segment and
after the last one, the per-segment decision in between. -/
def adjustClipsLoop (videoDur : ℚ) : List (ℚ × ℚ × ℚ) → ℚ → List Clip
  | [], cur => if cur < videoDur then [Clip.normal cur videoDur] else []
  | (s, e, factor) :: rest, cur =>
    (if cur < s then [Clip.normal cur s] else []) ++
      adjustSegClip s e factor :: adjustClipsLoop videoDur rest e

/-- `valid_segments` construction (lines 374-401): an existing audio
file and `success` truthy; `speed_ratio = original / translated` when
the translated length is positive, else 1. -/
def validSpeedSegments (fsExists : String → Bool) (audioLenMs : String → ℕ) :
    List TSeg → List (ℚ × ℚ × ℚ)
  | [] => []
  | s :: rest =>
    match s.translated_audio_path with
    | none => validSpeedSegments fsExists audioLenMs rest
    | some p =>
      if p ≠ "" ∧ fsExists p ∧ s.success.getD false then
        let translated : ℚ := msQ (audioLenMs p)
        let factor := if 0 < translated then (s.end_time - s.start_time) / translated
          else 1
        (s.start_time, s.end_time, factor) ::
          validSpeedSegments fsExists audioLenMs rest
      else validSpeedSegments fsExists audioLenMs rest

/-- `_adjust_video_speed_by_segments`: build clips over the valid
segments sorted by start time. -/
def adjust_video_speed_by_segments (fsExists : String → Bool)
    (audioLenMs : String → ℕ) (videoDur : ℚ) (segs : List TSeg) : List Clip :=
  adjustClipsLoop videoDur
    ((validSpeedSegments fsExists audioLenMs segs).mergeSort
      (fun a b => a.1 ≤ b.1)) 0

/-- Per-segment clip of `create_synchronized_video_blocks`
(lines 950-970): `speed_factor = original / translated`, retimed iff the
factor differs from 1 by more than 5%. -/
def blockSegClip (s e : ℚ) (translatedMs : ℕ) : Clip :=
  let factor := (e - s) / msQ translatedMs
  if 1/20 < |factor - 1| then Clip.retimed s e factor else Clip.normal s e

/-- Block loop of `create_synchronized_video_blocks` (lines 939-1002):
speech segments without an existing audio file are skipped; non-speech
intervals are dropped entirely (block-only mode). -/
def blockLoop (fsExists : String → Bool) (audioLenMs : String → ℕ) :
    List TSeg → List Clip
  | [] => []
  | s :: rest =>
    let p := s.translated_audio_path.getD ""
    if p = "" ∨ ¬ fsExists p then blockLoop fsExists audioLenMs rest
    else blockSegClip s.start_time s.end_time (audioLenMs p) ::
      blockLoop fsExists audioLenMs rest

/-- `create_synchronized_video_blocks`: VAD filter and sort
(lines 919-923), then the block loop. -/
def create_synchronized_video_blocks (fsExists : String → Bool)
    (audioLenMs : String → ℕ) (segs : List TSeg) : List Clip :=
  blockLoop fsExists audioLenMs
    ((segs.filter fun s =>
        s.translated_audio_path.getD "" ≠ "" ∧ s.vad_is_speech ∧
          s.status ≠ "no_speech_vad").mergeSort
      (fun a b => a.start_time ≤ b.start_time))

/-! ### Predicates used to state the specified properties -/

/-- Ordering/non-overlap relation between two segments: the first ends
no later than the second starts. -/
def segOrdered (a b : Seg) : Prop := a.end_time ≤ b.start_time

/-- Well-formedness of a `detect_silence` result, relative to a starting
position: every interval ends no earlier than it starts and no earlier
than the running position. -/
def SilOk : ℕ → List (ℕ × ℕ) → Prop
  | _, [] => True
  | pos, (sStart, sEnd) :: rest => sStart ≤ sEnd ∧ pos ≤ sEnd ∧ SilOk sEnd rest

/-- Chronology of a translated-segment list relative to a running time:
each segment starts no earlier than the running time, which then
advances to its end. -/
def ChainFrom (cur : ℚ) : List TSeg → Prop
  | [] => True
  | s :: rest => cur ≤ s.start_time ∧ ChainFrom s.end_time rest

/-- A time that is a whole number of milliseconds (every time the
pipeline produces is, since pydub positions are integer ms). -/
def IsMs (q : ℚ) : Prop := ∃ n : ℕ, q = (n : ℚ) / 1000

/-- The mark `filter_speech_segments` attaches to one segment whose
audio file is readable. -/
def vadMarkOf (audioOf : String → AudioFile) (min_confidence : ℚ) (s : Seg) :
    VadSeg :=
  let vr := is_speech_segment (audioOf s.path) min_confidence
  { seg := s, vad_is_speech := vr.is_speech, vad_confidence := vr.confidence,
    vad_reason := vr.reason, vad_metrics := vr.metrics,
    status := if vr.is_speech then none else some "no_speech_vad" }

/-- C2 as stated, at one pair of measured durations: mux directly below
0.5s of difference, pad the video when the audio is longer by at least
0.5s. -/
def mergeClaimAt (video_duration real_audio_duration : ℚ) : Prop :=
  (|real_audio_duration - video_duration| < 1/2 →
    build_merge_cmd video_duration real_audio_duration =
      { video_codec := "copy", audio_codec := "aac", tpad_clone := none }) ∧
  (video_duration + 1/2 ≤ real_audio_duration →
    build_merge_cmd video_duration real_audio_duration =
      { video_codec := "libx264", audio_codec := "aac",
        tpad_clone := some (real_audio_duration - video_duration) })

/-- C4 as stated, at one segmentation input: the first segment is
Speaker_A, and each later segment switches speaker exactly when the
silence preceding it (the previous segment's `silence_after`) exceeds 3s
or its own duration exceeds 60s. -/
def speakerSwitchClaim (audioLen : ℕ) (sils : List (ℕ × ℕ)) (minDur : ℚ) :
    Prop :=
  let segs := segment_by_silence_with_speaker_logic audioLen sils minDur
  (segs ≠ [] → (segs.getD 0 emptySeg).speaker = "Speaker_A") ∧
  ∀ k, k + 1 < segs.length →
    ((segs.getD (k + 1) emptySeg).speaker ≠
        (segs.getD k emptySeg).speaker ↔
      (3 < (segs.getD k emptySeg).silence_after ∨
        60 < (segs.getD (k + 1) emptySeg).duration))

/-- C7 as stated, at one segmentation input: every instant that lies in
the audio and in no detected silence is covered by an emitted segment
(sub-minimum candidates being folded forward rather than discarded). -/
def coverageClaim (audioLen : ℕ) (sils : List (ℕ × ℕ)) (minDur : ℚ) : Prop :=
  ∀ t : ℚ, 0 ≤ t → t < (audioLen : ℚ) / 1000 →
    (∀ p ∈ sils, ¬ ((p.1 : ℚ) / 1000 ≤ t ∧ t < (p.2 : ℚ) / 1000)) →
    ∃ s ∈ segment_by_silence_with_speaker_logic audioLen sils minDur,
      s.start_time ≤ t ∧ t < s.end_time

/-- C5 as stated, restricted to the merge operation: every produced
segment satisfies `end_time = start_time + duration`. -/
def segInvariantClaim (segs : List Seg) (minDur : ℚ) : Prop :=
  ∀ m ∈ merge_short_segments segs minDur,
    m.end_time = m.start_time + m.duration

/-- C6 as stated, at one input: the classification stage emits one entry
per input segment. -/
def vadCountClaim (fsExists : String → Bool) (audioOf : String → AudioFile)
    (min_confidence : ℚ) (segs : List Seg) : Prop :=
  (filter_speech_segments fsExists audioOf min_confidence segs).length =
    segs.length

/-- C8 as stated, at one analysis: an internal failure of pitch or
spectral analysis yields `male`. -/
def genderFailureClaimAt (path : String) (a : VoiceAnalysis) : Prop :=
  a.pitchFails = true ∨ a.spectralFails = true →
    analyze_voice_gender path a = Gender.male

/-- C9 as stated (its necessary half), at one input: any retimed
sub-clip produced by either reconciliation mode has a speed factor more
than 5% away from 1 and no smaller than the ~0.1 minimum. -/
def retimeClaimAt (fsExists : String → Bool) (audioLenMs : String → ℕ)
    (videoDur : ℚ) (segs : List TSeg) : Prop :=
  ∀ s e f,
    (Clip.retimed s e f ∈
        adjust_video_speed_by_segments fsExists audioLenMs videoDur segs ∨
      Clip.retimed s e f ∈
        create_synchronized_video_blocks fsExists audioLenMs segs) →
    1/20 < |f - 1| ∧ 1/10 ≤ f

/-- C1 as stated, at one reconciliation input: speech durations plus
inferred silence reconstruct `max(video_duration, produced audio
duration)` to within 0.1s. -/
def reconciledSumClaim (env : CombineEnv) (segs : List TSeg)
    (video_duration : ℚ) : Prop :=
  ∀ pieces, combine_translated_audio env segs video_duration = some pieces →
    |segDurSum (appendedSegs env segs) + msQ (gapMsSum pieces) -
        max video_duration (msQ (trackMs pieces))| ≤ 1/10

/-! ## Theorems -/

/-- Sorting a one-element list is the identity (needed to evaluate the
source's stable sorts on concrete inputs). -/
theorem mergeSort_single {α : Type} (le : α → α → Bool) (a : α) :
    [a].mergeSort le = [a] :=
  List.mergeSort_of_sorted (by simp)

/-- C10: classifying a loadable audio segment with zero samples returns
`is_speech = false`, confidence 0, reason `empty_audio` and empty
metrics — not the error default — for every threshold, hence
deterministically. -/
theorem empty_audio_verdict (a : AudioFile) (threshold : ℚ)
    (hload : a.loadFails = false) (hempty : a.n_samples = 0) :
    is_speech_segment a threshold =
      { is_speech := false, confidence := 0, reason := "empty_audio",
        metrics := none } := by
  simp [is_speech_segment, hload, hempty]

/-- Witness for `empty_audio_verdict` at a concrete empty file. -/
theorem empty_audio_verdict_witness :
    is_speech_segment
        { n_samples := 0, sr := 16000, loadFails := false,
          metrics := ⟨0, 0, 0, 0, 0, 0, 0, 0⟩ } (1/2) =
      { is_speech := false, confidence := 0, reason := "empty_audio",
        metrics := none } :=
  empty_audio_verdict _ _ rfl rfl

/-- C2 counterexample: when the measured audio is longer than the video
by exactly 0.5s ("at least 0.5s" per the claim), the code does not pad
the video; it muxes directly with the video stream copied. -/
theorem merge_cmd_counterexample : ¬ mergeClaimAt 10 (21/2) := by
  intro h
  have h2 := h.2 (by norm_num)
  have : build_merge_cmd 10 (21/2) =
      { video_codec := "copy", audio_codec := "aac", tpad_clone := none } := by
    norm_num [build_merge_cmd]
  rw [this] at h2
  simp at h2

/-- C2 amended: the video is padded (re-encoded, last frame cloned for
exactly the excess) only when the audio is strictly more than 0.5s
longer than the video; otherwise — including a difference of exactly
0.5s — the tracks are muxed directly with the video stream copied, and
no branch trims or pads the audio. -/
theorem merge_cmd_amended (v a : ℚ) :
    (v + 1/2 < a →
      build_merge_cmd v a =
        { video_codec := "libx264", audio_codec := "aac",
          tpad_clone := some (a - v) }) ∧
    (a ≤ v + 1/2 →
      build_merge_cmd v a =
        { video_codec := "copy", audio_codec := "aac", tpad_clone := none }) := by
  constructor
  · intro h
    simp only [build_merge_cmd]
    rw [if_pos h]
  · intro h
    simp only [build_merge_cmd]
    rw [if_neg (not_lt.mpr h)]

/-- Witness for `merge_cmd_amended` at concrete durations on both sides
of the threshold. -/
theorem merge_cmd_amended_witness :
    build_merge_cmd 10 12 =
      { video_codec := "libx264", audio_codec := "aac", tpad_clone := some 2 } ∧
    build_merge_cmd 10 10 =
      { video_codec := "copy", audio_codec := "aac", tpad_clone := none } := by
  constructor
  · have h := (merge_cmd_amended 10 12).1 (by norm_num)
    rw [h]
    norm_num
  · exact (merge_cmd_amended 10 10).2 (by norm_num)

/-- C3: evaluating the attributor on three segments (speakers A, B, A,
all analysed male) shows the same speaker label receiving two different
voices: the round-robin counter advances per segment and no
speaker-to-voice cache exists, contradicting the function's own
documentation ("назначает уникальный голос для спикера", counter
incremented "для следующего спикера"). -/
theorem voice_reassignment_bug :
    (detect_gender_for_segments
        (fun _ => { pitchFails := true, f0_values := [], spectralFails := false,
                    mean_centroid := 0, mean_mfcc := [] })
        [{ id := 0, path := "pa", start_time := 0, end_time := 5, duration := 5,
           speaker := "Speaker_A", speaker_confidence := 4/5, silence_after := 4 },
         { id := 1, path := "pb", start_time := 9, end_time := 14, duration := 5,
           speaker := "Speaker_B", speaker_confidence := 4/5, silence_after := 4 },
         { id := 2, path := "pa", start_time := 18, end_time := 23, duration := 5,
           speaker := "Speaker_A", speaker_confidence := 4/5,
           silence_after := 0 }]).map
      (fun g => (g.seg.speaker, g.voice_id)) =
    [("Speaker_A", "ru-male-1"), ("Speaker_B", "ru-male-2"),
     ("Speaker_A", "ru-male-3")] := by
  decide

/-- C5 counterexample: merging two same-speaker segments separated by a
1s gap produces a segment with `end_time = 11`, `start_time = 0` but
`duration = 10` (the sum of member durations), violating
`end_time = start_time + duration`. -/
theorem merge_duration_counterexample :
    ¬ segInvariantClaim
      [{ id := 0, path := "p0", start_time := 0, end_time := 5, duration := 5,
         speaker := "Speaker_A", speaker_confidence := 4/5, silence_after := 1 },
       { id := 1, path := "p1", start_time := 6, end_time := 11, duration := 5,
         speaker := "Speaker_A", speaker_confidence := 4/5, silence_after := 0 }]
      10 := by
  intro h
  have hout : merge_short_segments
      [{ id := 0, path := "p0", start_time := 0, end_time := 5, duration := 5,
         speaker := "Speaker_A", speaker_confidence := 4/5, silence_after := 1 },
       { id := 1, path := "p1", start_time := 6, end_time := 11, duration := 5,
         speaker := "Speaker_A", speaker_confidence := 4/5, silence_after := 0 }]
      10 =
      [{ id := 0, path := "p0", start_time := 0, end_time := 11, duration := 10,
         speaker := "Speaker_A", speaker_confidence := 4/5, silence_after := 0,
         merged_from := some 2 }] := by
    simp only [merge_short_segments, mergeLoop, flushGroup, merge_segment_group]
    norm_num
  have hm := h _ (hout ▸ List.mem_singleton_self _)
  norm_num at hm

/-- C6 counterexample: a segment whose `path` is empty is dropped from
the output entirely, so the stage does not emit one entry per input
segment. -/
theorem vad_filter_counterexample :
    ¬ vadCountClaim (fun _ => true)
      (fun _ => { n_samples := 0, sr := 0, loadFails := false,
                  metrics := ⟨0, 0, 0, 0, 0, 0, 0, 0⟩ })
      (1/2)
      [{ id := 0, path := "", start_time := 0, end_time := 5, duration := 5,
         speaker := "Speaker_A", speaker_confidence := 4/5,
         silence_after := 0 }] := by
  unfold vadCountClaim
  decide

/-- C6 amended: when every input segment names a nonempty, existing
audio file, the stage emits exactly one entry per input segment — the
original segment unchanged, with the VAD marks attached and a
`no_speech_vad` status exactly on non-speech verdicts. -/
theorem vad_filter_amended (fsExists : String → Bool)
    (audioOf : String → AudioFile) (min_confidence : ℚ) (segs : List Seg)
    (h : ∀ s ∈ segs, s.path ≠ "" ∧ fsExists s.path = true) :
    filter_speech_segments fsExists audioOf min_confidence segs =
      segs.map (vadMarkOf audioOf min_confidence) := by
  induction segs with
  | nil => rfl
  | cons s rest ih =>
    have hs := h s (by simp)
    have hrest : ∀ s' ∈ rest, s'.path ≠ "" ∧ fsExists s'.path = true :=
      fun s' hs' => h s' (by simp [hs'])
    simp only [filter_speech_segments, hs.1, hs.2, List.map_cons]
    rw [if_neg (by simp [hs.1, hs.2])]
    by_cases hsp : (is_speech_segment (audioOf s.path) min_confidence).is_speech
    · simp [hsp, vadMarkOf, ih hrest]
    · simp only [Bool.not_eq_true] at hsp
      simp [hsp, vadMarkOf, ih hrest]

/-- Witness for `vad_filter_amended` on a concrete one-segment input. -/
theorem vad_filter_amended_witness :
    filter_speech_segments (fun _ => true)
        (fun _ => { n_samples := 0, sr := 16000, loadFails := false,
                    metrics := ⟨0, 0, 0, 0, 0, 0, 0, 0⟩ })
        (1/2)
        [{ id := 0, path := "p", start_time := 0, end_time := 5, duration := 5,
           speaker := "Speaker_A", speaker_confidence := 4/5,
           silence_after := 0 }] =
      List.map
        (vadMarkOf
          (fun _ => { n_samples := 0, sr := 16000, loadFails := false,
                      metrics := ⟨0, 0, 0, 0, 0, 0, 0, 0⟩ })
          (1/2))
        [{ id := 0, path := "p", start_time := 0, end_time := 5, duration := 5,
           speaker := "Speaker_A", speaker_confidence := 4/5,
           silence_after := 0 }] :=
  vad_filter_amended _ _ _ _ (by decide)

/-- C8 counterexample: a failure during pitch analysis with an
odd-length audio path yields `female`, not the claimed unconditional
`male`. -/
theorem gender_fallback_counterexample :
    ¬ genderFailureClaimAt "abc"
      { pitchFails := true, f0_values := [], spectralFails := false,
        mean_centroid := 0, mean_mfcc := [] } := by
  unfold genderFailureClaimAt
  decide

/-- The voice picked by `_assign_voice_for_speaker` always comes from
the requested gender's pool. -/
theorem assign_voice_mem (g : Gender) (u : UsedVoices) :
    (assign_voice_for_speaker g u).1 ∈ voice_mapping g := by
  cases g with
  | male =>
    have h : u.maleCount % 3 = 0 ∨ u.maleCount % 3 = 1 ∨ u.maleCount % 3 = 2 := by
      omega
    rcases h with h | h | h <;>
      simp [assign_voice_for_speaker, voice_mapping, UsedVoices.get, h]
  | female =>
    have h : u.femaleCount % 3 = 0 ∨ u.femaleCount % 3 = 1 ∨
        u.femaleCount % 3 = 2 := by omega
    rcases h with h | h | h <;>
      simp [assign_voice_for_speaker, voice_mapping, UsedVoices.get, h]

/-- Every attributed segment carries a voice from its gender's pool,
whatever the analysis outcomes. -/
theorem detectLoop_voice_mem (analysisOf : String → VoiceAnalysis) :
    ∀ (segs : List Seg) (cache : List (String × Gender)) (used : UsedVoices),
      ∀ g ∈ detectLoop analysisOf segs cache used,
        g.voice_id ∈ voice_mapping g.gender := by
  intro segs
  induction segs with
  | nil => intro cache used g hg; simp [detectLoop] at hg
  | cons s rest ih =>
    intro cache used g hg
    rw [detectLoop, List.mem_cons] at hg
    rcases hg with hg | hg
    · subst hg
      exact assign_voice_mem _ _
    · exact ih _ _ g hg

/-- C8 amended: a failure inside spectral analysis defaults to `male`;
a failure during pitch analysis falls back to the parity of the audio
path's length (`male` for even, `female` for odd); in every case a voice
from the appropriate gender pool is still assigned. -/
theorem gender_fallback_amended (path : String) (a : VoiceAnalysis)
    (analysisOf : String → VoiceAnalysis) (segs : List Seg) :
    (a.spectralFails = true → analyze_spectral_features a = Gender.male) ∧
    (a.pitchFails = true →
      analyze_voice_gender path a =
        (if path.length % 2 = 0 then Gender.male else Gender.female)) ∧
    (∀ g ∈ detect_gender_for_segments analysisOf segs,
      g.voice_id ∈ voice_mapping g.gender) := by
  refine ⟨fun h => ?_, fun h => ?_, ?_⟩
  · simp [analyze_spectral_features, h]
  · simp [analyze_voice_gender, h]
  · intro g hg
    exact detectLoop_voice_mem analysisOf segs [] _ g hg

/-- Witness for `gender_fallback_amended` on a concrete failing
analysis with an even-length path. -/
theorem gender_fallback_amended_witness :
    analyze_spectral_features
      { pitchFails := true, f0_values := [], spectralFails := true,
        mean_centroid := 0, mean_mfcc := [] } = Gender.male ∧
    analyze_voice_gender "ab"
      { pitchFails := true, f0_values := [], spectralFails := true,
        mean_centroid := 0, mean_mfcc := [] } = Gender.male := by
  have h := gender_fallback_amended "ab"
    { pitchFails := true, f0_values := [], spectralFails := true,
      mean_centroid := 0, mean_mfcc := [] } (fun _ => ⟨true, [], true, 0, []⟩) []
  refine ⟨h.1 rfl, ?_⟩
  have h2 := h.2.1 rfl
  simpa using h2

/-- C9 counterexample: in the full-reconstruction mode, a segment whose
speed factor is 1.03 — within the claimed 5% leave-alone band — is
nevertheless retimed, because `_adjust_video_speed_by_segments` tests
`speed_ratio != 1.0 and speed_ratio > 0.1`, not the 5% band. -/
theorem segment_retiming_counterexample :
    ¬ retimeClaimAt (fun _ => true) (fun _ => 10000) (103/10)
      [{ start_time := 0, end_time := 103/10, success := some true,
         translated_audio_path := some "p" }] := by
  intro h
  have hv : validSpeedSegments (fun _ => true) (fun _ => 10000)
      [{ start_time := 0, end_time := 103/10, success := some true,
         translated_audio_path := some "p" }] = [(0, 103/10, 103/100)] := by
    simp only [validSpeedSegments, msQ]
    norm_num
    decide
  have hmem : Clip.retimed 0 (103/10) (103/100) ∈
      adjust_video_speed_by_segments (fun _ => true) (fun _ => 10000) (103/10)
        [{ start_time := 0, end_time := 103/10, success := some true,
           translated_audio_path := some "p" }] := by
    unfold adjust_video_speed_by_segments
    rw [hv, mergeSort_single]
    simp only [adjustClipsLoop, adjustSegClip]
    norm_num
  have hc := h 0 (103/10) (103/100) (Or.inl hmem)
  rw [show |(103:ℚ)/100 - 1| = 3/100 from by
    rw [show (103:ℚ)/100 - 1 = 3/100 by norm_num]
    exact abs_of_nonneg (by norm_num)] at hc
  norm_num at hc

/-- Retimed clips produced by the full-reconstruction loop always carry
a factor that is neither 1 nor ≤ 0.1 (gap and trailing clips are at
original speed, and the per-segment branch only retimes such factors). -/
theorem adjustClipsLoop_retimed (videoDur : ℚ) :
    ∀ (valid : List (ℚ × ℚ × ℚ)) (cur : ℚ) (s e f : ℚ),
      Clip.retimed s e f ∈ adjustClipsLoop videoDur valid cur →
      f ≠ 1 ∧ 1/10 < f := by
  intro valid
  induction valid with
  | nil =>
    intro cur s e f h
    by_cases hc : cur < videoDur <;> simp [adjustClipsLoop, hc] at h
  | cons t rest ih =>
    intro cur s e f h
    rw [adjustClipsLoop] at h
    rcases List.mem_append.1 h with h | h
    · by_cases hc : cur < t.1 <;> simp [hc] at h
    · rcases List.mem_cons.1 h with h | h
      · unfold adjustSegClip at h
        by_cases hcond : t.2.2 ≠ 1 ∧ 1/10 < t.2.2
        · rw [if_pos hcond] at h
          obtain ⟨-, -, rfl⟩ := Clip.retimed.inj h.symm
          exact hcond
        · rw [if_neg hcond] at h
          exact absurd h (by simp)
      · exact ih _ s e f h

/-- C9 amended: in the full-reconstruction mode a sub-clip is retimed
exactly when its speed factor differs from 1 and exceeds 0.1 (so no
retimed clip ever has a factor ≤ 0.1, but the 5% band plays no role);
in the block-only mode it is retimed exactly when the factor is more
than 5% away from 1, with no lower bound on the factor; in neither mode
is the factor itself ever altered. -/
theorem segment_retiming_amended (s e f : ℚ) (tms : ℕ) (videoDur : ℚ)
    (valid : List (ℚ × ℚ × ℚ)) :
    (f ≠ 1 ∧ 1/10 < f → adjustSegClip s e f = Clip.retimed s e f) ∧
    (¬ (f ≠ 1 ∧ 1/10 < f) → adjustSegClip s e f = Clip.normal s e) ∧
    (1/20 < |(e - s) / msQ tms - 1| →
      blockSegClip s e tms = Clip.retimed s e ((e - s) / msQ tms)) ∧
    (¬ (1/20 < |(e - s) / msQ tms - 1|) →
      blockSegClip s e tms = Clip.normal s e) ∧
    (∀ s' e' f', Clip.retimed s' e' f' ∈ adjustClipsLoop videoDur valid 0 →
      f' ≠ 1 ∧ 1/10 < f') := by
  refine ⟨fun h => ?_, fun h => ?_, fun h => ?_, fun h => ?_,
    fun s' e' f' h => adjustClipsLoop_retimed videoDur valid 0 s' e' f' h⟩
  · simp only [adjustSegClip]
    rw [if_pos h]
  · simp only [adjustSegClip]
    rw [if_neg h]
  · simp only [blockSegClip]
    rw [if_pos h]
  · simp only [blockSegClip]
    rw [if_neg h]

/-- Witness for `segment_retiming_amended` at concrete factors on both
sides of each decision. -/
theorem segment_retiming_amended_witness :
    adjustSegClip 0 10 2 = Clip.retimed 0 10 2 ∧
    adjustSegClip 0 10 1 = Clip.normal 0 10 ∧
    blockSegClip 0 10 5000 = Clip.retimed 0 10 ((10 - 0) / msQ 5000) ∧
    blockSegClip 0 10 10000 = Clip.normal 0 10 := by
  have h := segment_retiming_amended 0 10 2 5000 0 []
  have h2 := segment_retiming_amended 0 10 1 10000 0 []
  exact ⟨h.1 (by norm_num), h2.2.1 (by norm_num),
    h.2.2.1 (by norm_num [msQ]), h2.2.2.2.1 (by norm_num [msQ])⟩

/-- C7 counterexample: with silences at 6-7s and 9-10s of a 20s audio
and a 5s minimum, the 2s candidate between the silences is discarded
(not folded into the next candidate), so the instant t = 8s lies in no
emitted segment and no silence. -/
theorem silence_fold_counterexample :
    ¬ coverageClaim 20000 [(6000, 7000), (9000, 10000)] 5 := by
  intro h
  have h8 := h 8 (by norm_num) (by norm_num) (by norm_num)
  obtain ⟨s, hs, hcov⟩ := h8
  have hseg : segment_by_silence_with_speaker_logic 20000
      [(6000, 7000), (9000, 10000)] 5 =
      [{ id := 0, path := segPath 0, start_time := 0, end_time := 6,
         duration := 6, speaker := speakerLabel 0, speaker_confidence := 4/5,
         silence_after := 1 },
       { id := 1, path := segPath 1, start_time := 10, end_time := 20,
         duration := 10, speaker := speakerLabel 0, speaker_confidence := 4/5,
         silence_after := 0 }] := by
    norm_num [segment_by_silence_with_speaker_logic, extractLoop]
  rw [hseg] at hs
  simp only [List.mem_cons, List.not_mem_nil, or_false] at hs
  rcases hs with rfl | rfl
  · exact absurd hcov.2 (by norm_num)
  · exact absurd hcov.1 (by norm_num)

/-- The emitted spans are exactly the candidate chunks that meet the
minimum duration. -/
theorem extractLoop_spans (audioLen : ℕ) (minDur : ℚ) :
    ∀ (sils : List (ℕ × ℕ)) (pos spk n : ℕ),
      (extractLoop audioLen minDur sils pos spk n).map
          (fun s => (s.start_time, s.end_time)) =
        (candidateChunks audioLen sils pos).filter
          (fun c => minDur ≤ c.2 - c.1) := by
  intro sils
  induction sils with
  | nil =>
    intro pos spk n
    by_cases hp : pos < audioLen
    · by_cases hd : minDur ≤ ((audioLen : ℚ) - (pos : ℚ)) / 1000
      · simp [extractLoop, candidateChunks, hp, hd, List.filter, ← sub_div]
      · simp [extractLoop, candidateChunks, hp, hd, List.filter, ← sub_div]
    · simp [extractLoop, candidateChunks, hp]
  | cons t rest ih =>
    intro pos spk n
    obtain ⟨sStart, sEnd⟩ := t
    by_cases hp : pos < sStart
    · by_cases hd : minDur ≤ ((sStart : ℚ) - (pos : ℚ)) / 1000
      · simp [extractLoop, candidateChunks, hp, hd, List.filter, ← sub_div, ih]
      · simp [extractLoop, candidateChunks, hp, hd, List.filter, ← sub_div, ih]
    · simp [extractLoop, candidateChunks, hp, ih]

/-- C7 amended: a candidate chunk is emitted exactly when its duration
meets the minimum; a shorter candidate's span is discarded (the loop
jumps over it), so the emitted segments cover exactly the candidates at
or above threshold — not the whole non-silence timeline. -/
theorem emitted_candidates_amended (audioLen : ℕ) (sils : List (ℕ × ℕ))
    (minDur : ℚ) :
    (segment_by_silence_with_speaker_logic audioLen sils minDur).map
        (fun s => (s.start_time, s.end_time)) =
      (candidateChunks audioLen sils 0).filter
        (fun c => minDur ≤ c.2 - c.1) :=
  extractLoop_spans audioLen minDur sils 0 0 0

/-- C4 counterexample: with one 1s silence at 5-6s of a 41s audio, the
trailing 35s segment switches to Speaker_B although the silence
preceding it lasts only 1s and its duration is under 60s (the trailing
block switches on duration > 30s, a rule the claim does not admit). -/
theorem speaker_switch_counterexample :
    ¬ speakerSwitchClaim 41000 [(5000, 6000)] 5 := by
  intro h
  have hseg : segment_by_silence_with_speaker_logic 41000 [(5000, 6000)] 5 =
      [{ id := 0, path := segPath 0, start_time := 0, end_time := 5,
         duration := 5, speaker := speakerLabel 0, speaker_confidence := 4/5,
         silence_after := 1 },
       { id := 1, path := segPath 1, start_time := 6, end_time := 41,
         duration := 35, speaker := speakerLabel 1, speaker_confidence := 4/5,
         silence_after := 0 }] := by
    norm_num [segment_by_silence_with_speaker_logic, extractLoop]
  unfold speakerSwitchClaim at h
  rw [hseg] at h
  have hiff := h.2 0 (by simp)
  simp only [List.getD_cons_zero, List.getD_cons_succ] at hiff
  have hneq : speakerLabel 1 ≠ speakerLabel 0 := by decide
  have hdisj := hiff.mp hneq
  rcases hdisj with h3 | h60
  · norm_num at h3
  · norm_num at h60

/-- Speaker labels as flip-at-each-true-flag, rewritten as the parity of
the number of `true` flags in each prefix. -/
theorem parityLabels_prefix (flags : List Bool) :
    ∀ base, base < 2 →
      parityLabels base flags =
        (List.range flags.length).map
          (fun k => speakerLabel ((base + (flags.take (k + 1)).count true) % 2)) := by
  induction flags with
  | nil => intro base hb; simp [parityLabels]
  | cons f fs ih =>
    intro base hb
    have hb' : (if f then (base + 1) % 2 else base) < 2 := by
      by_cases hf : f <;> simp [hf] <;> omega
    rw [parityLabels, List.length_cons, List.range_succ_eq_map, List.map_cons,
      List.map_map, ih _ hb']
    congr 1
    · by_cases hf : f
      · simp [hf, List.count_cons]
      · simp [hf, List.count_cons, Nat.mod_eq_of_lt hb]
    · refine List.map_congr_left fun k hk => ?_
      apply congrArg speakerLabel
      by_cases hf : f <;>
        simp [hf, List.take_succ_cons, List.count_cons] <;> omega

/-- The speakers the segmentation loop emits are the flag-flip labels of
`switchFlags`, for any loop state with a valid speaker index. -/
theorem extractLoop_speaker (audioLen : ℕ) (minDur : ℚ) :
    ∀ (sils : List (ℕ × ℕ)) (pos spk n : ℕ), spk < 2 → (n = 0 → spk = 0) →
      (extractLoop audioLen minDur sils pos spk n).map Seg.speaker =
        parityLabels spk (switchFlags audioLen minDur sils pos (n == 0)) := by
  intro sils
  induction sils with
  | nil =>
    intro pos spk n hspk hn0
    by_cases hp : pos < audioLen
    · by_cases hd : minDur ≤ ((audioLen : ℚ) - (pos : ℚ)) / 1000
      · by_cases h30 : 30 < ((audioLen : ℚ) - (pos : ℚ)) / 1000 <;>
          simp [extractLoop, switchFlags, parityLabels, hp, hd, h30]
      · simp [extractLoop, switchFlags, parityLabels, hp, hd]
    · simp [extractLoop, switchFlags, parityLabels, hp]
  | cons t rest ih =>
    intro pos spk n hspk hn0
    obtain ⟨sStart, sEnd⟩ := t
    simp only [extractLoop, switchFlags]
    by_cases hp : pos < sStart
    · rw [if_pos hp, if_pos hp]
      by_cases hd : minDur ≤ ((sStart : ℚ) - (pos : ℚ)) / 1000
      · rw [if_pos hd, if_pos hd]
        by_cases hn : n = 0
        · subst hn
          have hspk0 : spk = 0 := hn0 rfl
          subst hspk0
          have hb : ((0 : ℕ) == 0) = true := rfl
          rw [hb, if_pos rfl, if_pos rfl, List.map_cons, parityLabels]
          rw [ih sEnd 0 1 (by norm_num) (by omega)]
          norm_num
          rfl
        · have hbeq : (n == 0) = false := by simp [hn]
          have hflag :
              (if 3 < (if rest ≠ [] then ((sEnd : ℚ) - (sStart : ℚ)) / 1000
                  else 0) then (spk + 1) % 2
                else if 60 < ((sStart : ℚ) - (pos : ℚ)) / 1000
                  then (spk + 1) % 2 else spk) =
              (if (decide (3 < (if rest ≠ [] then
                      ((sEnd : ℚ) - (sStart : ℚ)) / 1000 else 0)) ||
                    decide (60 < ((sStart : ℚ) - (pos : ℚ)) / 1000)) = true
                then (spk + 1) % 2 else spk) := by
            by_cases h3 : 3 < (if rest ≠ [] then
                ((sEnd : ℚ) - (sStart : ℚ)) / 1000 else 0) <;>
              by_cases h60 : 60 < ((sStart : ℚ) - (pos : ℚ)) / 1000 <;>
                simp [h3, h60]
          have hspk'lt :
              (if 3 < (if rest ≠ [] then ((sEnd : ℚ) - (sStart : ℚ)) / 1000
                  else 0) then (spk + 1) % 2
                else if 60 < ((sStart : ℚ) - (pos : ℚ)) / 1000
                  then (spk + 1) % 2 else spk) < 2 := by
            by_cases h3 : 3 < (if rest ≠ [] then
                ((sEnd : ℚ) - (sStart : ℚ)) / 1000 else 0)
            · rw [if_pos h3]
              omega
            · rw [if_neg h3]
              by_cases h60 : 60 < ((sStart : ℚ) - (pos : ℚ)) / 1000
              · rw [if_pos h60]
                omega
              · rw [if_neg h60]
                exact hspk
          have hbeq1 : (n + 1 == 0) = false := by simp
          rw [hbeq, if_neg hn, if_neg Bool.false_ne_true, List.map_cons]
          simp only [parityLabels]
          rw [← hflag, ih sEnd _ (n + 1) hspk'lt (by omega), hbeq1]
      · rw [if_neg hd, if_neg hd]
        exact ih sEnd spk n hspk hn0
    · rw [if_neg hp, if_neg hp]
      exact ih sEnd spk n hspk hn0

/-- C4 amended: the first segment emitted in the main loop is always
Speaker_A, and thereafter the speaker of the k-th emitted segment is
determined by the parity of the switch triggers fired so far, where a
trigger is: the silence interval FOLLOWING the segment exceeds 3s
(counted as 0 when that silence is the last detected one), or the
segment's own duration exceeds 60s; the trailing segment emitted after
the last silence instead triggers on duration exceeding 30s (and, when
it is the only segment, can make even the first segment Speaker_B). -/
theorem speaker_switch_amended (audioLen : ℕ) (sils : List (ℕ × ℕ))
    (minDur : ℚ) :
    (segment_by_silence_with_speaker_logic audioLen sils minDur).map
        Seg.speaker =
      (List.range (switchFlags audioLen minDur sils 0 true).length).map
        (fun k => speakerLabel
          (((switchFlags audioLen minDur sils 0 true).take (k + 1)).count
              true % 2)) := by
  have h := extractLoop_speaker audioLen minDur sils 0 0 0 (by norm_num)
    (fun _ => rfl)
  rw [segment_by_silence_with_speaker_logic, h,
    parityLabels_prefix _ 0 (by norm_num)]
  simp

/-- Every segment the segmentation loop emits satisfies
`end_time = start_time + duration` exactly. -/
theorem extractLoop_endtime (audioLen : ℕ) (minDur : ℚ) :
    ∀ (sils : List (ℕ × ℕ)) (pos spk n : ℕ),
      ∀ s ∈ extractLoop audioLen minDur sils pos spk n,
        s.end_time = s.start_time + s.duration := by
  intro sils
  induction sils with
  | nil =>
    intro pos spk n s hs
    by_cases hp : pos < audioLen
    · by_cases hd : minDur ≤ ((audioLen : ℚ) - (pos : ℚ)) / 1000
      · simp only [extractLoop, if_pos hp, if_pos hd, List.mem_singleton] at hs
        subst hs
        show (audioLen : ℚ) / 1000 = (pos : ℚ) / 1000 + ((audioLen : ℚ) - (pos : ℚ)) / 1000
        ring
      · simp [extractLoop, hp, hd] at hs
    · simp [extractLoop, hp] at hs
  | cons t rest ih =>
    intro pos spk n s hs
    obtain ⟨sStart, sEnd⟩ := t
    by_cases hp : pos < sStart
    · by_cases hd : minDur ≤ ((sStart : ℚ) - (pos : ℚ)) / 1000
      · simp only [extractLoop, if_pos hp, if_pos hd, List.mem_cons] at hs
        rcases hs with hs | hs
        · subst hs
          show (sStart : ℚ) / 1000 = (pos : ℚ) / 1000 + ((sStart : ℚ) - (pos : ℚ)) / 1000
          ring
        · exact ih sEnd _ (n + 1) s hs
      · simp only [extractLoop, if_pos hp, if_neg hd] at hs
        exact ih sEnd spk n s hs
    · simp only [extractLoop, if_neg hp] at hs
      exact ih sEnd spk n s hs

/-- Every emitted segment starts no earlier than the running position,
given well-formed silences. -/
theorem extractLoop_start_ge (audioLen : ℕ) (minDur : ℚ) :
    ∀ (sils : List (ℕ × ℕ)) (pos spk n : ℕ), SilOk pos sils →
      ∀ s ∈ extractLoop audioLen minDur sils pos spk n,
        (pos : ℚ) / 1000 ≤ s.start_time := by
  intro sils
  induction sils with
  | nil =>
    intro pos spk n _ s hs
    by_cases hp : pos < audioLen
    · by_cases hd : minDur ≤ ((audioLen : ℚ) - (pos : ℚ)) / 1000
      · simp only [extractLoop, if_pos hp, if_pos hd, List.mem_singleton] at hs
        subst hs
        exact le_refl _
      · simp [extractLoop, hp, hd] at hs
    · simp [extractLoop, hp] at hs
  | cons t rest ih =>
    intro pos spk n hok s hs
    obtain ⟨sStart, sEnd⟩ := t
    obtain ⟨h1, h2, hrest⟩ := hok
    have hcast : (pos : ℚ) / 1000 ≤ (sEnd : ℚ) / 1000 := by
      have h2' : (pos : ℚ) ≤ (sEnd : ℚ) := by exact_mod_cast h2
      linarith
    by_cases hp : pos < sStart
    · by_cases hd : minDur ≤ ((sStart : ℚ) - (pos : ℚ)) / 1000
      · simp only [extractLoop, if_pos hp, if_pos hd, List.mem_cons] at hs
        rcases hs with hs | hs
        · subst hs
          exact le_refl _
        · exact le_trans hcast (ih sEnd _ (n + 1) hrest s hs)
      · simp only [extractLoop, if_pos hp, if_neg hd] at hs
        exact le_trans hcast (ih sEnd spk n hrest s hs)
    · simp only [extractLoop, if_neg hp] at hs
      exact le_trans hcast (ih sEnd spk n hrest s hs)

/-- The emitted segments are pairwise non-overlapping (each ends no
later than any later one starts), given well-formed silences. -/
theorem extractLoop_pairwise (audioLen : ℕ) (minDur : ℚ) :
    ∀ (sils : List (ℕ × ℕ)) (pos spk n : ℕ), SilOk pos sils →
      List.Pairwise segOrdered (extractLoop audioLen minDur sils pos spk n) := by
  intro sils
  induction sils with
  | nil =>
    intro pos spk n _
    by_cases hp : pos < audioLen
    · by_cases hd : minDur ≤ ((audioLen : ℚ) - (pos : ℚ)) / 1000
      · simp [extractLoop, hp, hd]
      · simp [extractLoop, hp, hd]
    · simp [extractLoop, hp]
  | cons t rest ih =>
    intro pos spk n hok
    obtain ⟨sStart, sEnd⟩ := t
    obtain ⟨h1, h2, hrest⟩ := hok
    by_cases hp : pos < sStart
    · by_cases hd : minDur ≤ ((sStart : ℚ) - (pos : ℚ)) / 1000
      · simp only [extractLoop, if_pos hp, if_pos hd]
        rw [List.pairwise_cons]
        constructor
        · intro s hs
          show (sStart : ℚ) / 1000 ≤ s.start_time
          have hse : (sStart : ℚ) / 1000 ≤ (sEnd : ℚ) / 1000 := by
            have : (sStart : ℚ) ≤ (sEnd : ℚ) := by exact_mod_cast h1
            linarith
          exact le_trans hse
            (extractLoop_start_ge audioLen minDur rest sEnd _ (n + 1) hrest s hs)
        · exact ih sEnd _ (n + 1) hrest
      · simp only [extractLoop, if_pos hp, if_neg hd]
        exact ih sEnd spk n hrest
    · simp only [extractLoop, if_neg hp]
      exact ih sEnd spk n hrest

/-- Telescoping bound for a chained group: the first segment's start
plus the summed durations stays within the last segment's end. -/
theorem group_span_bound :
    ∀ (rest : List Seg) (first : Seg),
      (∀ s ∈ first :: rest, s.end_time = s.start_time + s.duration) →
      List.Chain' segOrdered (first :: rest) →
      first.start_time + ((first :: rest).map Seg.duration).sum ≤
        ((first :: rest).getLast (by simp)).end_time := by
  intro rest
  induction rest with
  | nil =>
    intro first hE _
    have h := hE first (by simp)
    simp [h]
  | cons b t ih =>
    intro first hE hC
    have hfb : segOrdered first b := (List.chain'_cons.mp hC).1
    have hC' : List.Chain' segOrdered (b :: t) := (List.chain'_cons.mp hC).2
    have hE' : ∀ s ∈ b :: t, s.end_time = s.start_time + s.duration :=
      fun s hs => hE s (by simp [hs])
    have hfe := hE first (by simp)
    have hlast : ((first :: b :: t).getLast (by simp)).end_time =
        ((b :: t).getLast (by simp)).end_time := by
      rw [List.getLast_cons]
    have hIH := ih b hE' hC'
    rw [hlast]
    simp only [List.map_cons, List.sum_cons] at hIH ⊢
    have : first.start_time + first.duration ≤ b.start_time := by
      rw [← hfe]
      exact hfb
    linarith

/-- `flushGroup` of a chained nonempty group keeps the first start, the
last end, and a duration that fits the span. -/
theorem flushGroup_spec (first : Seg) (rest : List Seg)
    (hE : ∀ s ∈ first :: rest, s.end_time = s.start_time + s.duration)
    (hC : List.Chain' segOrdered (first :: rest)) :
    (flushGroup (first :: rest)).start_time = first.start_time ∧
    (flushGroup (first :: rest)).end_time =
      ((first :: rest).getLast (by simp)).end_time ∧
    (flushGroup (first :: rest)).start_time + (flushGroup (first :: rest)).duration ≤
      (flushGroup (first :: rest)).end_time := by
  cases rest with
  | nil =>
    have h := hE first (by simp)
    simp [flushGroup, h]
  | cons b t =>
    have hlen : 1 < (first :: b :: t).length := by simp
    refine ⟨?_, ?_, ?_⟩
    · simp [flushGroup, if_pos hlen, merge_segment_group]
    · simp [flushGroup, if_pos hlen, merge_segment_group]
    · have hspan := group_span_bound (b :: t) first hE hC
      simpa [flushGroup, if_pos hlen, merge_segment_group] using hspan

/-- Soundness of the merging walk: outputs start no earlier than the
current group's first segment, their duration fits their span, and they
remain pairwise non-overlapping. -/
theorem mergeLoop_sound (minDur : ℚ) :
    ∀ (rest : List Seg) (g0 : Seg) (gr : List Seg),
      (∀ s ∈ (g0 :: gr) ++ rest, s.end_time = s.start_time + s.duration) →
      (∀ s ∈ (g0 :: gr) ++ rest, 0 ≤ s.duration) →
      List.Pairwise segOrdered ((g0 :: gr) ++ rest) →
      (∀ m ∈ mergeLoop minDur (g0 :: gr) rest,
        g0.start_time ≤ m.start_time ∧
          m.start_time + m.duration ≤ m.end_time) ∧
      List.Pairwise segOrdered (mergeLoop minDur (g0 :: gr) rest) := by
  intro rest
  induction rest with
  | nil =>
    intro g0 gr hE hD hP
    have hEg : ∀ s ∈ g0 :: gr, s.end_time = s.start_time + s.duration :=
      fun s hs => hE s (List.mem_append_left _ hs)
    have hC : List.Chain' segOrdered (g0 :: gr) := by
      have hP' : List.Pairwise segOrdered (g0 :: gr) := by simpa using hP
      exact hP'.chain'
    obtain ⟨hstart, hend, hspan⟩ := flushGroup_spec g0 gr hEg hC
    rw [mergeLoop]
    constructor
    · intro m hm
      rw [List.mem_singleton] at hm
      subst hm
      exact ⟨le_of_eq hstart.symm, hspan⟩
    · simp
  | cons cur rest' ih =>
    intro g0 gr hE hD hP
    rw [mergeLoop]
    by_cases hcond : cur.speaker = ((g0 :: gr).getLastD emptySeg).speaker ∧
        ((g0 :: gr).map Seg.duration).sum + cur.duration < minDur * 2
    · rw [if_pos hcond]
      have heq : (g0 :: gr) ++ [cur] = g0 :: (gr ++ [cur]) := by simp
      rw [heq]
      have hlist : (g0 :: (gr ++ [cur])) ++ rest' = (g0 :: gr) ++ (cur :: rest') := by
        simp
      refine ih g0 (gr ++ [cur]) ?_ ?_ ?_
      · intro s hs
        rw [hlist] at hs
        exact hE s hs
      · intro s hs
        rw [hlist] at hs
        exact hD s hs
      · rw [hlist]
        exact hP
    · rw [if_neg hcond]
      have hEg : ∀ s ∈ g0 :: gr, s.end_time = s.start_time + s.duration :=
        fun s hs => hE s (List.mem_append_left _ hs)
      have hC : List.Chain' segOrdered (g0 :: gr) := by
        have hP' : List.Pairwise segOrdered (g0 :: gr) :=
          hP.sublist (List.sublist_append_left _ _)
        exact hP'.chain'
      obtain ⟨hstart, hend, hspan⟩ := flushGroup_spec g0 gr hEg hC
      have hcross := (List.pairwise_append.mp hP).2.2
      have hE' : ∀ s ∈ (cur :: ([] : List Seg)) ++ rest',
          s.end_time = s.start_time + s.duration := by
        intro s hs
        simp only [List.cons_append, List.nil_append] at hs
        exact hE s (List.mem_append_right _ hs)
      have hD' : ∀ s ∈ (cur :: ([] : List Seg)) ++ rest', 0 ≤ s.duration := by
        intro s hs
        simp only [List.cons_append, List.nil_append] at hs
        exact hD s (List.mem_append_right _ hs)
      have hP' : List.Pairwise segOrdered ((cur :: ([] : List Seg)) ++ rest') := by
        simp only [List.cons_append, List.nil_append]
        exact hP.sublist (List.sublist_append_right _ _)
      obtain ⟨ha', hb'⟩ := ih cur [] hE' hD' hP'
      have hg0se : g0.start_time ≤ g0.end_time := by
        have h1 := hE g0 (List.mem_append_left _ (by simp))
        have h2 := hD g0 (List.mem_append_left _ (by simp))
        linarith
      have hg0cur : g0.start_time ≤ cur.start_time := by
        have h := hcross g0 (by simp) cur (by simp)
        exact le_trans hg0se h
      constructor
      · intro m hm
        rcases List.mem_cons.mp hm with rfl | hm
        · exact ⟨le_of_eq hstart.symm, hspan⟩
        · have h1 := (ha' m hm).1
          exact ⟨le_trans hg0cur h1, (ha' m hm).2⟩
      · rw [List.pairwise_cons]
        refine ⟨?_, hb'⟩
        intro m hm
        show (flushGroup (g0 :: gr)).end_time ≤ m.start_time
        rw [hend]
        have hlastmem : (g0 :: gr).getLast (by simp) ∈ g0 :: gr :=
          List.getLast_mem _
        have hlastcur := hcross _ hlastmem cur (by simp)
        exact le_trans hlastcur (ha' m hm).1

/-- C5 amended: segmentation output satisfies
`end_time = start_time + duration` exactly and is pairwise
non-overlapping in emission order (given well-formed silences); merge
output satisfies only `start_time + duration ≤ end_time` — the summed
duration undershoots the span when the merged members had gaps — while
remaining pairwise non-overlapping. -/
theorem segment_merge_invariants_amended (audioLen : ℕ)
    (sils : List (ℕ × ℕ)) (minDur : ℚ) (segs : List Seg) (mD : ℚ)
    (hsil : SilOk 0 sils)
    (hE : ∀ s ∈ segs, s.end_time = s.start_time + s.duration)
    (hD : ∀ s ∈ segs, 0 ≤ s.duration)
    (hP : List.Pairwise segOrdered segs) :
    (∀ s ∈ segment_by_silence_with_speaker_logic audioLen sils minDur,
      s.end_time = s.start_time + s.duration) ∧
    List.Pairwise segOrdered
      (segment_by_silence_with_speaker_logic audioLen sils minDur) ∧
    (∀ m ∈ merge_short_segments segs mD,
      m.start_time + m.duration ≤ m.end_time) ∧
    List.Pairwise segOrdered (merge_short_segments segs mD) := by
  refine ⟨fun s hs => extractLoop_endtime audioLen minDur sils 0 0 0 s hs,
    extractLoop_pairwise audioLen minDur sils 0 0 0 hsil, ?_, ?_⟩
  · cases segs with
    | nil => intro m hm; simp [merge_short_segments] at hm
    | cons s0 rest =>
      intro m hm
      exact ((mergeLoop_sound mD rest s0 [] (by simpa using hE)
        (by simpa using hD) (by simpa using hP)).1 m hm).2
  · cases segs with
    | nil => simp [merge_short_segments]
    | cons s0 rest =>
      exact (mergeLoop_sound mD rest s0 [] (by simpa using hE)
        (by simpa using hD) (by simpa using hP)).2

/-- Witness for `segment_merge_invariants_amended` at concrete inputs:
one silence in a 10s audio, and the two gapped same-speaker segments of
the counterexample. -/
theorem segment_merge_invariants_amended_witness :
    (∀ s ∈ segment_by_silence_with_speaker_logic 10000 [(6000, 7000)] 2,
      s.end_time = s.start_time + s.duration) ∧
    List.Pairwise segOrdered
      (segment_by_silence_with_speaker_logic 10000 [(6000, 7000)] 2) ∧
    (∀ m ∈ merge_short_segments
        [{ id := 0, path := "p0", start_time := 0, end_time := 5, duration := 5,
           speaker := "Speaker_A", speaker_confidence := 4/5, silence_after := 1 },
         { id := 1, path := "p1", start_time := 6, end_time := 11, duration := 5,
           speaker := "Speaker_A", speaker_confidence := 4/5,
           silence_after := 0 }] 10,
      m.start_time + m.duration ≤ m.end_time) ∧
    List.Pairwise segOrdered (merge_short_segments
      [{ id := 0, path := "p0", start_time := 0, end_time := 5, duration := 5,
         speaker := "Speaker_A", speaker_confidence := 4/5, silence_after := 1 },
       { id := 1, path := "p1", start_time := 6, end_time := 11, duration := 5,
         speaker := "Speaker_A", speaker_confidence := 4/5,
         silence_after := 0 }] 10) := by
  apply segment_merge_invariants_amended
  all_goals norm_num [SilOk, List.pairwise_cons, segOrdered]

/-- `msQ` is additive. -/
theorem msQ_add (a b : ℕ) : msQ (a + b) = msQ a + msQ b := by
  simp only [msQ]
  push_cast
  ring

/-- The inferred-silence total distributes over track concatenation. -/
theorem gapMsSum_append (xs ys : List Piece) :
    gapMsSum (xs ++ ys) = gapMsSum xs + gapMsSum ys := by
  simp [gapMsSum, List.filter_append]

/-- On whole-millisecond times the source's `int(x * 1000)` silence
construction is exact. -/
theorem floorMs_exact (a b : ℚ) (ha : IsMs a) (hb : IsMs b) (hle : b ≤ a) :
    msQ (floorMs (a - b)) = a - b := by
  obtain ⟨m, rfl⟩ := ha
  obtain ⟨n, rfl⟩ := hb
  have hnm : n ≤ m := by
    have h : (n : ℚ) ≤ (m : ℚ) := by
      by_contra hc
      push_neg at hc
      have : (m : ℚ) / 1000 < (n : ℚ) / 1000 := by linarith
      linarith
    exact_mod_cast h
  have hsub : (m : ℚ) / 1000 - (n : ℚ) / 1000 = ((m - n : ℕ) : ℚ) / 1000 := by
    rw [Nat.cast_sub hnm]
    ring
  rw [hsub]
  unfold floorMs msQ
  rw [div_mul_cancel₀ _ (by norm_num : (1000 : ℚ) ≠ 0)]
  rw [show (((m - n : ℕ) : ℚ)).floor = ⌊(((m - n : ℕ) : ℚ))⌋ from rfl,
    Int.floor_natCast, Int.toNat_natCast]

/-- Specification of the appending loop on a chronological, fully
passing segment list: it appends the inter-segment gaps and the
translated audio, ends at the last segment's original `end_time`, counts
every segment, and its inferred gaps plus original durations span
exactly from the entry time to that last `end_time`. -/
theorem appendLoop_spec (env : CombineEnv) :
    ∀ (L : List TSeg) (acc : List Piece) (cur : ℚ) (succ : ℕ),
      ChainFrom cur L → IsMs cur →
      (∀ s ∈ L, combinePass env s = true ∧ IsMs s.start_time ∧
        IsMs s.end_time) →
      ∃ Δ : List Piece,
        (appendLoop env L acc cur succ).1 = acc ++ Δ ∧
        (appendLoop env L acc cur succ).2.1 =
          (L.map TSeg.end_time).getLastD cur ∧
        (appendLoop env L acc cur succ).2.2 = succ + L.length ∧
        msQ (gapMsSum Δ) + segDurSum L =
          (L.map TSeg.end_time).getLastD cur - cur ∧
        IsMs ((L.map TSeg.end_time).getLastD cur) := by
  intro L
  induction L with
  | nil =>
    intro acc cur succ _ hcur _
    refine ⟨[], by simp [appendLoop], by simp [appendLoop], by simp [appendLoop],
      ?_, by simpa using hcur⟩
    simp [gapMsSum, segDurSum, msQ]
  | cons s rest ih =>
    intro acc cur succ hchain hcur hall
    obtain ⟨hcs, hchain'⟩ := hchain
    obtain ⟨hpass, hms, hme⟩ := hall s (by simp)
    have hall' : ∀ t ∈ rest, combinePass env t = true ∧ IsMs t.start_time ∧
        IsMs t.end_time := fun t ht => hall t (by simp [ht])
    have hgap : msQ (gapMsSum (if cur < s.start_time
        then [Piece.silence (floorMs (s.start_time - cur))] else [])) =
        s.start_time - cur := by
      by_cases hlt : cur < s.start_time
      · rw [if_pos hlt]
        have := floorMs_exact s.start_time cur hms hcur (le_of_lt hlt)
        simpa [gapMsSum, Piece.isSilence, Piece.ms] using this
      · rw [if_neg hlt]
        have heq : s.start_time = cur := le_antisymm (not_lt.mp hlt) hcs
        simp [gapMsSum, msQ, heq]
    rw [appendLoop]
    rw [if_pos hpass]
    obtain ⟨Δ', h1, h2, h3, h4, h5⟩ := ih
      (acc ++ (if cur < s.start_time
          then [Piece.silence (floorMs (s.start_time - cur))] else []) ++
        [Piece.speech (env.audioLenMs (s.translated_audio_path.getD ""))])
      s.end_time (succ + 1) hchain' hme hall'
    refine ⟨(if cur < s.start_time
        then [Piece.silence (floorMs (s.start_time - cur))] else []) ++
      [Piece.speech (env.audioLenMs (s.translated_audio_path.getD ""))] ++ Δ',
      ?_, ?_, ?_, ?_, ?_⟩
    · rw [h1]
      simp [List.append_assoc]
    · rw [h2, List.map_cons, List.getLastD_cons]
    · rw [h3, List.length_cons]
      omega
    · rw [List.map_cons, List.getLastD_cons]
      have hgaps : gapMsSum ((if cur < s.start_time
          then [Piece.silence (floorMs (s.start_time - cur))] else []) ++
        [Piece.speech (env.audioLenMs (s.translated_audio_path.getD ""))] ++ Δ') =
          gapMsSum (if cur < s.start_time
            then [Piece.silence (floorMs (s.start_time - cur))] else []) +
          gapMsSum Δ' := by
        rw [gapMsSum_append, gapMsSum_append]
        simp [gapMsSum, Piece.isSilence]
      rw [hgaps, msQ_add]
      have hdur : segDurSum (s :: rest) =
          (s.end_time - s.start_time) + segDurSum rest := by
        simp [segDurSum]
      rw [hdur, hgap]
      linarith
    · rw [List.map_cons, List.getLastD_cons]
      exact h5

/-- The speech pre-filter keeps a single surviving segment. -/
theorem speechSegsOf_single (s : TSeg)
    (h : (s.vad_is_speech ∧ s.status ≠ "no_speech_vad") ∧ s.end_time ≠ 0) :
    speechSegsOf [s] = [s] := by
  unfold speechSegsOf
  rw [List.filter_cons_of_pos (by simpa using h), List.filter_nil,
    mergeSort_single]

/-- `floorMs` recovers the millisecond count of a whole-ms rational. -/
theorem floorMs_natDiv (n : ℕ) : floorMs ((n : ℚ) / 1000) = n := by
  unfold floorMs
  rw [div_mul_cancel₀ _ (by norm_num : (1000 : ℚ) ≠ 0)]
  rw [show ((n : ℚ)).floor = ⌊(n : ℚ)⌋ from rfl, Int.floor_natCast,
    Int.toNat_natCast]

/-- C1 counterexample: one speech segment occupying 2-10s of a 20s
video whose synthesized audio lasts 12s.  The track built is 2s lead
silence + 12s speech + 10s trailing silence = 24s, so
`max(video_duration, produced audio) = 24s`, while the segment durations
plus inferred gaps total 8 + 12 = 20s — off by 4s, far beyond 0.1s:
the loop advances `current_time` by original end times while appending
audio of different length. -/
theorem reconciled_sum_counterexample :
    ¬ reconciledSumClaim
      { fsExists := fun _ => true, audioLenMs := fun _ => 12000,
        origPathGiven := false, origProbeMs := 0, transProbe := none }
      [{ start_time := 2, end_time := 10, success := some true,
         translated_audio_path := some "p" }] 20 := by
  intro h
  have hs : speechSegsOf
      [{ start_time := 2, end_time := 10, success := some true,
         translated_audio_path := some "p" }] =
      [{ start_time := 2, end_time := 10, success := some true,
         translated_audio_path := some "p" }] :=
    speechSegsOf_single _ (by refine ⟨⟨rfl, by decide⟩, by norm_num⟩)
  have hf2 : floorMs (2 : ℚ) = 2000 := by
    rw [show (2 : ℚ) = ((2000 : ℕ) : ℚ) / 1000 by norm_num, floorMs_natDiv]
  have hf10 : floorMs (10 : ℚ) = 10000 := by
    rw [show (10 : ℚ) = ((10000 : ℕ) : ℚ) / 1000 by norm_num, floorMs_natDiv]
  have hlead : leadPieces
      { fsExists := fun _ => true, audioLenMs := fun _ => 12000,
        origPathGiven := false, origProbeMs := 0, transProbe := none }
      (2 : ℚ) = ([Piece.silence 2000], 2) := by
    norm_num [leadPieces, hf2]
  have happ : appendLoop
      { fsExists := fun _ => true, audioLenMs := fun _ => 12000,
        origPathGiven := false, origProbeMs := 0, transProbe := none }
      [{ start_time := 2, end_time := 10, success := some true,
         translated_audio_path := some "p" }]
      [Piece.silence 2000] 2 0 =
      ([Piece.silence 2000, Piece.speech 12000], 10, 1) := by
    norm_num [appendLoop, combinePass]
    decide
  have hc : combine_translated_audio
      { fsExists := fun _ => true, audioLenMs := fun _ => 12000,
        origPathGiven := false, origProbeMs := 0, transProbe := none }
      [{ start_time := 2, end_time := 10, success := some true,
         translated_audio_path := some "p" }] 20 =
      some [Piece.silence 2000, Piece.speech 12000, Piece.silence 10000] := by
    unfold combine_translated_audio
    rw [hs]
    norm_num [hlead, happ, hf10]
  have h1 : appendedSegs
      { fsExists := fun _ => true, audioLenMs := fun _ => 12000,
        origPathGiven := false, origProbeMs := 0, transProbe := none }
      [{ start_time := 2, end_time := 10, success := some true,
         translated_audio_path := some "p" }] =
      [{ start_time := 2, end_time := 10, success := some true,
         translated_audio_path := some "p" }] := by
    unfold appendedSegs
    rw [hs]
    decide
  have hval := h _ hc
  rw [h1] at hval
  have h2 : segDurSum
      [{ start_time := 2, end_time := 10, success := some true,
         translated_audio_path := some "p" }] = 8 := by
    norm_num [segDurSum]
  have h3 : msQ (gapMsSum
      [Piece.silence 2000, Piece.speech 12000, Piece.silence 10000]) = 12 := by
    norm_num [gapMsSum, msQ, Piece.isSilence, Piece.ms, List.filter]
  have h4 : msQ (trackMs
      [Piece.silence 2000, Piece.speech 12000, Piece.silence 10000]) = 24 := by
    norm_num [trackMs, msQ, Piece.ms]
  rw [h2, h3, h4] at hval
  rw [max_eq_right (by norm_num : (20 : ℚ) ≤ 24)] at hval
  rw [show (8 : ℚ) + 12 - 24 = -4 from by norm_num, abs_neg,
    abs_of_nonneg (by norm_num : (0 : ℚ) ≤ 4)] at hval
  norm_num at hval

/-- C1 amended: for a chronological, whole-millisecond, fully passing
segment list whose first speech starts after time 0, the appended
original durations plus all inferred silence (leading, inter-segment and
trailing) total exactly `max(video_duration, last speech end_time)` —
the original timeline span, not `max(video_duration, reconciled audio
duration)`, from which it differs by the net synthesis length drift. -/
theorem reconciled_track_amended (env : CombineEnv) (segs : List TSeg)
    (video_duration : ℚ)
    (hvd : IsMs video_duration)
    (hpass : ∀ s ∈ speechSegsOf segs, combinePass env s = true ∧
      IsMs s.start_time ∧ IsMs s.end_time)
    (hchain : ChainFrom 0 (speechSegsOf segs))
    (hfirst : ∀ s0 ∈ (speechSegsOf segs).head?, 0 < s0.start_time) :
    ∀ pieces, combine_translated_audio env segs video_duration = some pieces →
      segDurSum (appendedSegs env segs) + msQ (gapMsSum pieces) =
        max video_duration
          (((speechSegsOf segs).map TSeg.end_time).getLastD 0) := by
  intro pieces hp
  have happ : appendedSegs env segs = speechSegsOf segs := by
    unfold appendedSegs
    exact List.filter_eq_self.mpr fun s hs => (hpass s hs).1
  rw [happ]
  rcases hL : speechSegsOf segs with _ | ⟨s0, t⟩
  · unfold combine_translated_audio at hp
    rw [hL] at hp
    simp at hp
  · unfold combine_translated_audio at hp
    rw [hL] at hp
    dsimp only at hp
    rw [hL] at hchain hpass hfirst
    rw [ChainFrom.eq_def] at hchain
    obtain ⟨-, hchainT⟩ := hchain
    have hfirstpos : 0 < s0.start_time := hfirst s0 rfl
    have hne0 : ¬ s0.start_time = 0 := ne_of_gt hfirstpos
    obtain ⟨hpass0, hms0, hme0⟩ := hpass s0 (by simp)
    have hlead : leadPieces env s0.start_time =
        ([Piece.silence (floorMs s0.start_time)], s0.start_time) := by
      simp [leadPieces, hne0, hfirstpos]
    have hchainL : ChainFrom s0.start_time (s0 :: t) := ⟨le_refl _, hchainT⟩
    obtain ⟨Δ, hA1, hA2, hA3, hA4, hA5⟩ := appendLoop_spec env (s0 :: t)
      [Piece.silence (floorMs s0.start_time)] s0.start_time 0 hchainL hms0 hpass
    rw [hlead] at hp
    have hsuccne : ¬ (appendLoop env (s0 :: t)
        [Piece.silence (floorMs s0.start_time)] s0.start_time 0).2.2 = 0 := by
      rw [hA3]
      simp
    rw [if_neg hsuccne, hA2] at hp
    have hgl : ((s0 :: t).map TSeg.end_time).getLastD 0 =
        ((s0 :: t).map TSeg.end_time).getLastD s0.start_time := by
      rw [List.map_cons, List.getLastD_cons, List.getLastD_cons]
    rw [hgl]
    have hleadgap : msQ (floorMs s0.start_time) = s0.start_time := by
      have h := floorMs_exact s0.start_time 0 hms0 ⟨0, by norm_num⟩
        (le_of_lt hfirstpos)
      simpa using h
    by_cases hcase :
        ((s0 :: t).map TSeg.end_time).getLastD s0.start_time < video_duration
    · rw [if_pos hcase, hA1] at hp
      injection hp with hpieces
      subst hpieces
      rw [gapMsSum_append, gapMsSum_append, msQ_add, msQ_add]
      have htrail : msQ (gapMsSum [Piece.silence (floorMs (video_duration -
          ((s0 :: t).map TSeg.end_time).getLastD s0.start_time))]) =
          video_duration -
            ((s0 :: t).map TSeg.end_time).getLastD s0.start_time := by
        have h := floorMs_exact video_duration
          (((s0 :: t).map TSeg.end_time).getLastD s0.start_time) hvd hA5
          (le_of_lt hcase)
        simpa [gapMsSum, Piece.isSilence, Piece.ms] using h
      have hgl1 : msQ (gapMsSum [Piece.silence (floorMs s0.start_time)]) =
          s0.start_time := by
        simpa [gapMsSum, Piece.isSilence, Piece.ms] using hleadgap
      rw [htrail, hgl1, max_eq_left (le_of_lt hcase)]
      linarith
    · rw [if_neg hcase, hA1] at hp
      injection hp with hpieces
      subst hpieces
      rw [gapMsSum_append, msQ_add]
      have hgl1 : msQ (gapMsSum [Piece.silence (floorMs s0.start_time)]) =
          s0.start_time := by
        simpa [gapMsSum, Piece.isSilence, Piece.ms] using hleadgap
      rw [hgl1, max_eq_right (not_lt.mp hcase)]
      linarith

/-- Witness for `reconciled_track_amended` at the concrete one-segment
reconciliation: 8s of speech plus 12s of inferred silence reconstruct
the 20s video exactly. -/
theorem reconciled_track_amended_witness :
    segDurSum (appendedSegs
      { fsExists := fun _ => true, audioLenMs := fun _ => 12000,
        origPathGiven := false, origProbeMs := 0, transProbe := none }
      [{ start_time := 2, end_time := 10, success := some true,
         translated_audio_path := some "p" }]) +
      msQ (gapMsSum [Piece.silence 2000, Piece.speech 12000,
        Piece.silence 10000]) =
      max 20 (((speechSegsOf
        [{ start_time := 2, end_time := 10, success := some true,
           translated_audio_path := some "p" }]).map
          TSeg.end_time).getLastD 0) := by
  have hs : speechSegsOf
      [{ start_time := 2, end_time := 10, success := some true,
         translated_audio_path := some "p" }] =
      [{ start_time := 2, end_time := 10, success := some true,
         translated_audio_path := some "p" }] :=
    speechSegsOf_single _ (by refine ⟨⟨rfl, by decide⟩, by norm_num⟩)
  have hf2 : floorMs (2 : ℚ) = 2000 := by
    rw [show (2 : ℚ) = ((2000 : ℕ) : ℚ) / 1000 by norm_num, floorMs_natDiv]
  have hf10 : floorMs (10 : ℚ) = 10000 := by
    rw [show (10 : ℚ) = ((10000 : ℕ) : ℚ) / 1000 by norm_num, floorMs_natDiv]
  have hlead : leadPieces
      { fsExists := fun _ => true, audioLenMs := fun _ => 12000,
        origPathGiven := false, origProbeMs := 0, transProbe := none }
      (2 : ℚ) = ([Piece.silence 2000], 2) := by
    norm_num [leadPieces, hf2]
  have happ : appendLoop
      { fsExists := fun _ => true, audioLenMs := fun _ => 12000,
        origPathGiven := false, origProbeMs := 0, transProbe := none }
      [{ start_time := 2, end_time := 10, success := some true,
         translated_audio_path := some "p" }]
      [Piece.silence 2000] 2 0 =
      ([Piece.silence 2000, Piece.speech 12000], 10, 1) := by
    norm_num [appendLoop, combinePass]
    decide
  have hc : combine_translated_audio
      { fsExists := fun _ => true, audioLenMs := fun _ => 12000,
        origPathGiven := false, origProbeMs := 0, transProbe := none }
      [{ start_time := 2, end_time := 10, success := some true,
         translated_audio_path := some "p" }] 20 =
      some [Piece.silence 2000, Piece.speech 12000, Piece.silence 10000] := by
    unfold combine_translated_audio
    rw [hs]
    norm_num [hlead, happ, hf10]
  refine reconciled_track_amended _ _ 20 ⟨20000, by norm_num⟩ ?_ ?_ ?_ _ hc
  · rw [hs]
    intro s hs'
    simp only [List.mem_singleton] at hs'
    subst hs'
    exact ⟨rfl, ⟨2000, by norm_num⟩, ⟨10000, by norm_num⟩⟩
  · rw [hs]
    exact ⟨by norm_num, trivial⟩
  · rw [hs]
    intro s0 hs0
    simp only [List.head?_cons, Option.mem_some_iff] at hs0
    subst hs0
    norm_num

end SpeechBridge
